import Mathlib

/-
  Verification of the streaming protocol transcoder of the claude-worker-proxy
  repository (src/openai.ts together with the shared stream helpers it uses).

  The embedding follows the source:
  * `processTextPart`, `processToolUsePart` (utils, lines 312-383) build the
    three wire events of one content block; events are modelled structurally
    by the inductive type `Event` rather than as the rendered SSE byte string.
  * The per-line callback passed by `convertStreamResponse`
    (openai.ts, lines 218-267) is `openaiProcessLine`; `JSON.parse` of the
    line payload and of tool-call argument strings are JavaScript built-ins
    and are therefore abstracted as the environment fields `parseChunk` and
    `parseJson` (`none` models a thrown exception for `parseChunk`, and
    "not valid JSON" for `parseJson`).  The token estimator is the external
    capability `estimate` / `estimateMessages` (the token-estimator module is
    not part of the sources).  `Math.random`-based `generateId` is modelled by
    the injected supply `genId` applied to a running counter.
  * The read loop, line framing, and finalizer of `processProviderStream`
    (utils, lines 393-490) are `streamChunkLoop`, `streamLinesLoop`,
    `streamLineStep` and `streamFinalize`.  A thrown JavaScript exception is
    modelled by an explicit `Bool` flag (the loop stops, the finally block
    still runs); an exception thrown inside the finally block aborts the
    finalizer before `sendMessageStop`, which is modelled by `closed = false`
    in `RunResult`.
  * Byte chunks are modelled as `List Char` (the stateful `TextDecoder`
    reassembles split multi-byte sequences, so the observable unit of a read
    is a sequence of characters).
-/

namespace ClaudeWorkerProxy

/-- JSON values, as produced by the JavaScript JSON built-ins. -/
inductive Json where
  | null
  | bool (b : Bool)
  | num (n : Int)
  | str (s : String)
  | arr (elems : List Json)
  | obj (fields : List (String × Json))

mutual

/-- Serialization of a JSON value, modelling `JSON.stringify`. -/
def Json.stringify : Json → String
  | Json.null => "null"
  | Json.bool b => cond b "true" "false"
  | Json.num n => toString n
  | Json.str s => "\"" ++ s ++ "\""
  | Json.arr xs => "[" ++ Json.stringifyArr xs ++ "]"
  | Json.obj fs => "\x7b" ++ Json.stringifyObj fs ++ "\x7d"

def Json.stringifyArr : List Json → String
  | [] => ""
  | [x] => Json.stringify x
  | x :: y :: xs => Json.stringify x ++ "," ++ Json.stringifyArr (y :: xs)

def Json.stringifyObj : List (String × Json) → String
  | [] => ""
  | [(k, v)] => "\"" ++ k ++ "\":" ++ Json.stringify v
  | (k, v) :: f :: fs => "\"" ++ k ++ "\":" ++ Json.stringify v ++ "," ++ Json.stringifyObj (f :: fs)

end

/-- Modelled from the spec: `safeJsonParse` lives in the token-estimator
module, whose source is not included; per the spec it must not raise on
malformed argument JSON and treats unparsable argument text as an opaque
empty-object value.  `parseJson` is the underlying `JSON.parse`
(`none` = the text is not valid JSON). -/
def safeJsonParse (parseJson : String → Option Json) (s : String) : Json :=
  (parseJson s).getD (Json.obj [])

/- The shape of one OpenAI streaming chunk, as read by the callback in
openai.ts (fields the code accesses; every field can be absent at runtime,
hence `Option`). -/

structure OpenAIFunctionFragment where
  name : Option String
  arguments : Option String
deriving DecidableEq

structure OpenAIToolCallFragment where
  function : Option OpenAIFunctionFragment
deriving DecidableEq

structure OpenAIStreamDelta where
  content : Option String
  tool_calls : Option (List OpenAIToolCallFragment)
deriving DecidableEq

structure OpenAIStreamChoice where
  delta : Option OpenAIStreamDelta
deriving DecidableEq

structure OpenAIStreamResponse where
  choices : Option (List OpenAIStreamChoice)
deriving DecidableEq

/-- The usage record attached to `message_stop` (utils, lines 300-310). -/
structure UsageInfo where
  input_tokens : Nat
  output_tokens : Nat
deriving DecidableEq

/-- The `content_block` field of a `content_block_start` event. -/
inductive BlockStart where
  | text
  | tool_use (id : String) (toolName : String)
deriving DecidableEq

/-- The `delta` field of a `content_block_delta` event; the string argument of
`input_json_delta` is the `partial_json` payload. -/
inductive Delta where
  | text_delta (text : String)
  | input_json_delta (payload : String)
deriving DecidableEq

/-- One outbound wire event (structural shape of the SSE record each helper in
utils renders and enqueues). -/
inductive Event where
  | message_start (id : String)
  | content_block_start (index : Nat) (block : BlockStart)
  | content_block_delta (index : Nat) (delta : Delta)
  | content_block_stop (index : Nat)
  | message_stop (usage : Option UsageInfo)
deriving DecidableEq

def Event.isBlockEvent : Event → Bool
  | .content_block_start _ _ => true
  | .content_block_delta _ _ => true
  | .content_block_stop _ => true
  | _ => false

def Event.isMessageStart : Event → Bool
  | .message_start _ => true
  | _ => false

def Event.isMessageStop : Event → Bool
  | .message_stop _ => true
  | _ => false

/-- The original Claude request, of which the stream code only reads
`messages` (passed to `estimateMessages`); message contents stay abstract. -/
structure ClaudeRequest (Msg : Type) where
  messages : List Msg

/-- External capabilities consumed by the transcoder: the two uses of
`JSON.parse`, the token estimator, and the identifier supply. -/
structure Env (Msg : Type) where
  parseChunk : String → Option OpenAIStreamResponse
  parseJson : String → Option Json
  estimate : String → Nat
  estimateMessages : List Msg → Nat
  genId : Nat → String

/-- utils `processTextPart` (lines 312-345): the three-event triple of one
text fragment, all tagged with the same index. -/
def processTextPart (text : String) (index : Nat) : List Event :=
  [Event.content_block_start index BlockStart.text,
   Event.content_block_delta index (Delta.text_delta text),
   Event.content_block_stop index]

/-- utils `processToolUsePart` (lines 347-383): the three-event triple of one
tool-call fragment.  The source calls `generateId()` for `toolUseId`; the
caller passes the generated id here. -/
def processToolUsePart (toolName : String) (args : Json) (index : Nat) (toolUseId : String) : List Event :=
  [Event.content_block_start index (BlockStart.tool_use toolUseId toolName),
   Event.content_block_delta index (Delta.input_json_delta (Json.stringify args)),
   Event.content_block_stop index]

/-- The `delta.tool_calls` loop of the openai callback (openai.ts, lines
238-259).  Arguments: fragments, currentToolIndex, accumulatedOutputTokens,
id counter.  Returns (events, currentToolIndex, accumulatedOutputTokens,
id counter).  A fragment takes the branch only when `toolCall.function?.name`
and `toolCall.function?.arguments` are both truthy (present and nonempty). -/
def processToolCalls {Msg : Type} (E : Env Msg) :
    List OpenAIToolCallFragment → Nat → Nat → Nat → List Event × Nat × Nat × Nat
  | [], toolIdx, acc, idCtr => ([], toolIdx, acc, idCtr)
  | tc :: rest, toolIdx, acc, idCtr =>
    match tc.function with
    | none => processToolCalls E rest toolIdx acc idCtr
    | some f =>
      match f.name, f.arguments with
      | some n, some a =>
        if n = "" then processToolCalls E rest toolIdx acc idCtr
        else if a = "" then processToolCalls E rest toolIdx acc idCtr
        else
          let toolArgs := safeJsonParse E.parseJson a
          let evs := processToolUsePart n toolArgs toolIdx (E.genId idCtr)
          let acc1 := acc + E.estimate n + E.estimate (Json.stringify toolArgs)
          match processToolCalls E rest (toolIdx + 1) acc1 (idCtr + 1) with
          | (evs2, toi, acc2, id2) => (evs ++ evs2, toi, acc2, id2)
      | _, _ => processToolCalls E rest toolIdx acc idCtr

/-- The result object returned by the openai per-line callback
(openai.ts, lines 261-266). -/
structure LineResult where
  events : List Event
  textBlockIndex : Nat
  toolUseBlockIndex : Nat
  outputTokens : Nat
deriving DecidableEq

/-- Outcome of one callback invocation.  `thrown` models a JavaScript
exception escaping the callback (from `JSON.parse` on the payload, or from
reading `delta.content` when `choices[0].delta` is absent); `skip` models the
`null` return for a chunk without choices. -/
inductive LineOutcome where
  | thrown
  | skip
  | produced (r : LineResult) (acc : Nat) (idCtr : Nat)
deriving DecidableEq

/-- The `if (delta.content)` block of the openai callback (openai.ts, lines
230-236): the text triple, the bumped textBlockIndex, and the token
accumulation.  `delta.content` is truthy only when present and nonempty. -/
def openaiTextStep {Msg : Type} (E : Env Msg) (delta : OpenAIStreamDelta)
    (textBlockIndex acc : Nat) : List Event × Nat × Nat :=
  match delta.content with
  | some c =>
    if c = "" then (([] : List Event), textBlockIndex, acc)
    else (processTextPart c textBlockIndex, textBlockIndex + 1, acc + E.estimate c)
  | none => (([] : List Event), textBlockIndex, acc)

/-- The two sequential blocks of the openai callback applied to one delta
(openai.ts, lines 226-266): text fragment first, then the tool-call loop;
returns the result object together with the updated closure variables. -/
def openaiDeltaStep {Msg : Type} (E : Env Msg) (delta : OpenAIStreamDelta)
    (textBlockIndex toolUseBlockIndex acc idCtr : Nat) : LineResult × Nat × Nat :=
  match openaiTextStep E delta textBlockIndex acc with
  | (evs1, ti2, acc1) =>
    match (match delta.tool_calls with
           | some tcs => processToolCalls E tcs toolUseBlockIndex acc1 idCtr
           | none => (([] : List Event), toolUseBlockIndex, acc1, idCtr)) with
    | (evs2, toi2, acc2, id2) => (⟨evs1 ++ evs2, ti2, toi2, acc2⟩, acc2, id2)

/-- The per-line callback built in `convertStreamResponse`
(openai.ts, lines 218-267), with the two closure variables
(`accumulatedOutputTokens` and the id counter) threaded explicitly. -/
def openaiProcessLine {Msg : Type} (E : Env Msg) (jsonStr : String)
    (textBlockIndex toolUseBlockIndex acc idCtr : Nat) : LineOutcome :=
  match E.parseChunk jsonStr with
  | none => .thrown
  | some openaiData =>
    match openaiData.choices with
    | none => .skip
    | some [] => .skip
    | some (choice :: _) =>
      match choice.delta with
      | none => .thrown
      | some delta =>
        match openaiDeltaStep E delta textBlockIndex toolUseBlockIndex acc idCtr with
        | (r, acc2, id2) => .produced r acc2 id2

/-- JavaScript `chunk.split(String.fromCharCode(10))`: always returns at least
one segment; a trailing newline yields a final empty segment. -/
def splitNl : List Char → List (List Char)
  | [] => [[]]
  | c :: rest =>
    if c = '\n' then [] :: splitNl rest
    else
      match splitNl rest with
      | s :: ss => (c :: s) :: ss
      | [] => [[c]]

/-- Truthiness of `line.trim()` negated: the line consists of whitespace
only. -/
def isBlank (l : List Char) : Bool := l.all Char.isWhitespace

/-- The marker prefix checked by `line.startsWith` in the read loop. -/
def dataMarker : List Char := ("data: ").toList

/-- Mutable state of one run of `processProviderStream` (utils, lines
411-415) together with the closure state of the openai callback:
`acc` is `accumulatedOutputTokens`, `idCtr` the `generateId` supply position,
`events` everything enqueued so far. -/
structure StreamState where
  textBlockIndex : Nat
  toolUseBlockIndex : Nat
  totalOutputTokens : Nat
  acc : Nat
  idCtr : Nat
  events : List Event
deriving DecidableEq

/-- State right after `sendMessageStart` (utils, line 417): counters zero,
the `message_start` event already enqueued with a fresh id. -/
def initState {Msg : Type} (E : Env Msg) : StreamState :=
  ⟨0, 0, 0, 0, 1, [Event.message_start (E.genId 0)]⟩

/-- Body of the `for (const line of lines)` loop (utils, lines 429-449) for
one line.  The `Bool` is true when the callback threw (the exception escapes
the loop). -/
def streamLineStep {Msg : Type} (E : Env Msg) (line : List Char) (st : StreamState) :
    StreamState × Bool :=
  if isBlank line || !(dataMarker.isPrefixOf line) then (st, false)
  else
    let jsonStr := String.mk (line.drop 6)
    if jsonStr = "[DONE]" then (st, false)
    else
      match openaiProcessLine E jsonStr st.textBlockIndex st.toolUseBlockIndex st.acc st.idCtr with
      | .thrown => (st, true)
      | .skip => (st, false)
      | .produced r acc2 id2 =>
        ({ st with
            textBlockIndex := r.textBlockIndex,
            toolUseBlockIndex := r.toolUseBlockIndex,
            totalOutputTokens := if r.outputTokens ≠ 0 then r.outputTokens else st.totalOutputTokens,
            acc := acc2,
            idCtr := id2,
            events := st.events ++ r.events }, false)

/-- The complete-lines loop of one read; stops at the first thrown
exception. -/
def streamLinesLoop {Msg : Type} (E : Env Msg) : List (List Char) → StreamState → StreamState × Bool
  | [], st => (st, false)
  | l :: rest, st =>
    match streamLineStep E l st with
    | (st2, true) => (st2, true)
    | (st2, false) => streamLinesLoop E rest st2

/-- The `while (true)` read loop (utils, lines 420-450): each read appends to
the held-back buffer, splits on newlines, keeps the last segment as the new
buffer and processes the complete lines.  Returns the final buffer, the state
and whether an exception broke the loop. -/
def streamChunkLoop {Msg : Type} (E : Env Msg) :
    List (List Char) → List Char → StreamState → List Char × StreamState × Bool
  | [], buf, st => (buf, st, false)
  | c :: rest, buf, st =>
    let parts := splitNl (buf ++ c)
    let buf2 := parts.getLastD []
    match streamLinesLoop E parts.dropLast st with
    | (st2, true) => (buf2, st2, true)
    | (st2, false) => streamChunkLoop E rest buf2 st2

/-- Observable outcome of one run: the enqueued events, and whether
`controller.close()` was reached (`false` models the exception from the
trailing-buffer callback call escaping the finally block, erroring the
outbound stream before `sendMessageStop`). -/
structure RunResult where
  events : List Event
  closed : Bool
deriving DecidableEq

/-- The usage computation of the finally block (utils, lines 466-474): when
the caller supplied the original request (the estimator is always supplied by
the openai provider), usage is the estimated input tokens of the original
messages together with the running output total; otherwise no usage. -/
def finalUsage {Msg : Type} (E : Env Msg) (req : Option (ClaudeRequest Msg))
    (total : Nat) : Option UsageInfo :=
  match req with
  | some q => some ⟨E.estimateMessages q.messages, total⟩
  | none => none

/-- The finally block (utils, lines 451-477): the non-blank remainder is
handed to the callback with its first six characters cut off, then the usage
record is computed and `message_stop` enqueued.  Note the source checks
neither the data marker nor the `[DONE]` sentinel here, and a callback
exception skips `sendMessageStop` entirely. -/
def streamFinalize {Msg : Type} (E : Env Msg) (req : Option (ClaudeRequest Msg))
    (buf : List Char) (st : StreamState) : RunResult :=
  let withStop : StreamState → RunResult := fun st2 =>
    ⟨st2.events ++ [Event.message_stop (finalUsage E req st2.totalOutputTokens)], true⟩
  if isBlank buf then withStop st
  else
    match openaiProcessLine E (String.mk (buf.drop 6)) st.textBlockIndex st.toolUseBlockIndex st.acc st.idCtr with
    | .thrown => ⟨st.events, false⟩
    | .skip => withStop st
    | .produced r acc2 _ =>
      withStop { st with
        totalOutputTokens := if r.outputTokens ≠ 0 then r.outputTokens else st.totalOutputTokens,
        acc := acc2,
        events := st.events ++ r.events }

/-- utils `processProviderStream` (lines 393-490) instantiated with the
openai per-line callback: `body = none` models a response without a readable
body (the stream is closed with no events at all); otherwise the reads are
processed and the finally block runs whether or not the loop threw. -/
def processProviderStream {Msg : Type} (E : Env Msg) (body : Option (List (List Char)))
    (req : Option (ClaudeRequest Msg)) : RunResult :=
  match body with
  | none => ⟨[], true⟩
  | some chunks =>
    match streamChunkLoop E chunks [] (initState E) with
    | (buf, st, _) => streamFinalize E req buf st

/-- Concatenation of all reads: the same byte stream delivered as a single
chunk. -/
def joinAll (chunks : List (List Char)) : List Char :=
  chunks.foldr (fun a b => a ++ b) []

/-- The final value of the callback closure variable
`accumulatedOutputTokens` for a given body: the running total of estimator
outputs, including the contribution of the trailing buffer line. -/
def streamAccTotal {Msg : Type} (E : Env Msg) (chunks : List (List Char)) : Nat :=
  match streamChunkLoop E chunks [] (initState E) with
  | (buf, st, _) =>
    if isBlank buf then st.acc
    else
      match openaiProcessLine E (String.mk (buf.drop 6)) st.textBlockIndex st.toolUseBlockIndex st.acc st.idCtr with
      | .thrown => st.acc
      | .skip => st.acc
      | .produced _ acc2 _ => acc2

/-- Well-formedness of the block-event layer of an emitted event list: block
events occur only as complete start/delta/stop triples over one shared
index, freely interleaved with message-level events. -/
inductive EventShape : List Event → Prop where
  | nil : EventShape []
  | msgStart (s : String) (rest : List Event) :
      EventShape rest → EventShape (Event.message_start s :: rest)
  | msgStop (u : Option UsageInfo) (rest : List Event) :
      EventShape rest → EventShape (Event.message_stop u :: rest)
  | triple (i : Nat) (bs : BlockStart) (d : Delta) (rest : List Event) :
      EventShape rest →
      EventShape (Event.content_block_start i bs :: Event.content_block_delta i d ::
        Event.content_block_stop i :: rest)

/-- The given events are all content-block events. -/
def onlyBlockEvents (l : List Event) : Prop := ∀ e ∈ l, e.isBlockEvent = true

/-- The event list is a concatenation of complete start/delta/stop triples
(no message-level events at all): the shape of everything a single line
contributes. -/
inductive TriplesOnly : List Event → Prop where
  | nil : TriplesOnly []
  | triple (i : Nat) (bs : BlockStart) (d : Delta) (rest : List Event) :
      TriplesOnly rest →
      TriplesOnly (Event.content_block_start i bs :: Event.content_block_delta i d ::
        Event.content_block_stop i :: rest)

/- ### Concrete example payloads and environment

The `parseChunk` and `parseJson` fields below agree with the JavaScript JSON
built-ins on every string the examples feed them: each listed payload is the
JSON text of the paired chunk value, and every other string handed to the
parser in the examples (such as "\x7bbad", "[DONE]", "not json" or the empty
string) is not valid JSON, where `JSON.parse` throws. -/

def hiPayload : String := "\x7b\"choices\":[\x7b\"delta\":\x7b\"content\":\"Hi\"\x7d\x7d]\x7d"

def hiChunk : OpenAIStreamResponse := ⟨some [⟨some ⟨some ("Hi"), none⟩⟩]⟩

def emptyChoicesPayload : String := "\x7b\"choices\":[]\x7d"

def mixedPayload : String :=
  "\x7b\"choices\":[\x7b\"delta\":\x7b\"content\":\"A\",\"tool_calls\":[\x7b\"function\":\x7b\"name\":\"lookup\",\"arguments\":\"not json\"\x7d\x7d]\x7d\x7d]\x7d"

def mixedChunk : OpenAIStreamResponse :=
  ⟨some [⟨some ⟨some ("A"), some [⟨some ⟨some ("lookup"), some ("not json")⟩⟩]⟩⟩]⟩

def exEnv : Env Nat :=
  ⟨fun s =>
      if s = hiPayload then some hiChunk
      else if s = emptyChoicesPayload then some ⟨some []⟩
      else if s = mixedPayload then some mixedChunk
      else none,
   fun _ => none,
   String.length,
   fun ms => 7 + ms.length,
   fun k => toString k⟩

def exReq : ClaudeRequest Nat := ⟨[5, 6]⟩

/- ### Framing lemmas: the newline splitter -/

theorem splitNl_cons_nl (rest : List Char) : splitNl ('\n' :: rest) = [] :: splitNl rest := by
  simp [splitNl]

theorem splitNl_cons_ne (c : Char) (rest s : List Char) (ss : List (List Char))
    (h : c ≠ '\n') (hs : splitNl rest = s :: ss) : splitNl (c :: rest) = (c :: s) :: ss := by
  simp [splitNl, h, hs]

theorem splitNl_ne_nil (l : List Char) : splitNl l ≠ [] := by
  cases l with
  | nil => simp [splitNl]
  | cons c rest =>
    by_cases hc : c = '\n'
    · subst hc
      rw [splitNl_cons_nl]
      simp
    · cases hs : splitNl rest with
      | nil =>
        simp [splitNl, hc, hs]
      | cons s ss =>
        rw [splitNl_cons_ne c rest s ss hc hs]
        simp

theorem dropLast_cons_ne {α : Type} (a : α) (l : List α) (h : l ≠ []) :
    (a :: l).dropLast = a :: l.dropLast := by
  cases l with
  | nil => exact absurd rfl h
  | cons b l2 => rfl

theorem getLastD_cons_ne {α : Type} (a d : α) (l : List α) (h : l ≠ []) :
    (a :: l).getLastD d = l.getLastD d := by
  cases l with
  | nil => exact absurd rfl h
  | cons b l2 => rfl

theorem dropLast_append_ne {α : Type} (u v : List α) (h : v ≠ []) :
    (u ++ v).dropLast = u ++ v.dropLast := by
  induction u with
  | nil => rfl
  | cons a u ih =>
    have hne : u ++ v ≠ [] := by
      intro hc
      exact h (List.append_eq_nil.mp hc).2
    rw [List.cons_append, dropLast_cons_ne _ _ hne, ih, List.cons_append]

theorem getLastD_append_ne {α : Type} (u v : List α) (d : α) (h : v ≠ []) :
    (u ++ v).getLastD d = v.getLastD d := by
  induction u generalizing d with
  | nil => rfl
  | cons a u ih =>
    have hne : u ++ v ≠ [] := by
      intro hc
      exact h (List.append_eq_nil.mp hc).2
    rw [List.cons_append, getLastD_cons_ne _ _ _ hne, ih]

/-- The key framing homomorphism: splitting a concatenation equals splitting
the first part, holding back its last (incomplete) segment, and splitting
that remainder together with the second part. -/
theorem splitNl_append (x y : List Char) :
    splitNl (x ++ y) = (splitNl x).dropLast ++ splitNl ((splitNl x).getLastD [] ++ y) := by
  induction x with
  | nil => simp [splitNl]
  | cons c x ih =>
    by_cases hc : c = '\n'
    · subst hc
      have hx := splitNl_ne_nil x
      rw [List.cons_append, splitNl_cons_nl, splitNl_cons_nl,
        dropLast_cons_ne _ _ hx, getLastD_cons_ne _ _ _ hx, ih, List.cons_append]
    · cases hs : splitNl x with
      | nil => exact absurd hs (splitNl_ne_nil x)
      | cons s ss =>
        cases ss with
        | nil =>
          have ih2 : splitNl (x ++ y) = splitNl (s ++ y) := by
            rw [ih, hs]
            rfl
          cases ht : splitNl (s ++ y) with
          | nil => exact absurd ht (splitNl_ne_nil _)
          | cons t ts =>
            rw [List.cons_append, splitNl_cons_ne c (x ++ y) t ts hc (ih2.trans ht),
              splitNl_cons_ne c x s [] hc hs]
            show (c :: t) :: ts = [] ++ splitNl ((c :: s) ++ y)
            rw [List.nil_append, List.cons_append,
              splitNl_cons_ne c (s ++ y) t ts hc ht]
        | cons s2 ss2 =>
          have hne : (s2 :: ss2 : List (List Char)) ≠ [] := by simp
          have hxy : splitNl (x ++ y) =
              s :: ((s2 :: ss2).dropLast ++ splitNl ((s2 :: ss2).getLastD [] ++ y)) := by
            rw [ih, hs, dropLast_cons_ne _ _ hne, getLastD_cons_ne _ _ _ hne, List.cons_append]
          rw [List.cons_append, splitNl_cons_ne c (x ++ y) _ _ hc hxy,
            splitNl_cons_ne c x s (s2 :: ss2) hc hs,
            dropLast_cons_ne (c :: s) _ hne, getLastD_cons_ne (c :: s) _ _ hne,
            List.cons_append]

theorem splitNl_no_nl (u : List Char) (h : '\n' ∉ u) : splitNl u = [u] := by
  induction u with
  | nil => rfl
  | cons c u ih =>
    have hc : c ≠ '\n' := fun hc => h (hc ▸ List.mem_cons_self c u)
    have hu : '\n' ∉ u := fun hm => h (List.mem_cons_of_mem c hm)
    rw [splitNl_cons_ne c u u [] hc (ih hu)]

theorem splitNl_line (u : List Char) (h : '\n' ∉ u) : splitNl (u ++ ['\n']) = [u, []] := by
  induction u with
  | nil => rfl
  | cons c u ih =>
    have hc : c ≠ '\n' := fun hc => h (hc ▸ List.mem_cons_self c u)
    have hu : '\n' ∉ u := fun hm => h (List.mem_cons_of_mem c hm)
    rw [List.cons_append, splitNl_cons_ne c (u ++ ['\n']) u [[]] hc (ih hu)]

/- ### Lines-loop lemmas -/

theorem streamLinesLoop_cons {Msg : Type} (E : Env Msg) (l : List Char)
    (rest : List (List Char)) (st : StreamState) :
    streamLinesLoop E (l :: rest) st =
      match streamLineStep E l st with
      | (st2, true) => (st2, true)
      | (st2, false) => streamLinesLoop E rest st2 := by
  rfl

theorem streamLinesLoop_append_thrown {Msg : Type} (E : Env Msg) (l1 l2 : List (List Char))
    (st : StreamState) (h : (streamLinesLoop E l1 st).2 = true) :
    streamLinesLoop E (l1 ++ l2) st = streamLinesLoop E l1 st := by
  induction l1 generalizing st with
  | nil => simp [streamLinesLoop] at h
  | cons l rest ih =>
    rw [streamLinesLoop_cons E l rest st] at h
    rw [List.cons_append, streamLinesLoop_cons E l (rest ++ l2) st,
      streamLinesLoop_cons E l rest st]
    cases hstep : streamLineStep E l st with
    | mk st2 b =>
      rw [hstep] at h
      cases b with
      | true => rfl
      | false => exact ih st2 h

theorem streamLinesLoop_append_ok {Msg : Type} (E : Env Msg) (l1 l2 : List (List Char))
    (st : StreamState) (h : (streamLinesLoop E l1 st).2 = false) :
    streamLinesLoop E (l1 ++ l2) st = streamLinesLoop E l2 (streamLinesLoop E l1 st).1 := by
  induction l1 generalizing st with
  | nil => simp [streamLinesLoop]
  | cons l rest ih =>
    rw [streamLinesLoop_cons E l rest st] at h
    rw [List.cons_append, streamLinesLoop_cons E l (rest ++ l2) st,
      streamLinesLoop_cons E l rest st]
    cases hstep : streamLineStep E l st with
    | mk st2 b =>
      rw [hstep] at h
      cases b with
      | true => exact absurd h (by simp)
      | false => exact ih st2 h

theorem streamLinesLoop_prefix_ok {Msg : Type} (E : Env Msg) (l1 l2 : List (List Char))
    (st : StreamState) (h : (streamLinesLoop E (l1 ++ l2) st).2 = false) :
    (streamLinesLoop E l1 st).2 = false := by
  cases hb : (streamLinesLoop E l1 st).2 with
  | false => rfl
  | true => rw [streamLinesLoop_append_thrown E l1 l2 st hb] at h; rw [hb] at h; exact h

/- ### Chunk-loop lemmas: chunk-boundary invariance -/

theorem streamChunkLoop_cons {Msg : Type} (E : Env Msg) (c : List Char)
    (rest : List (List Char)) (buf : List Char) (st : StreamState) :
    streamChunkLoop E (c :: rest) buf st =
      match streamLinesLoop E (splitNl (buf ++ c)).dropLast st with
      | (st2, true) => ((splitNl (buf ++ c)).getLastD [], st2, true)
      | (st2, false) => streamChunkLoop E rest ((splitNl (buf ++ c)).getLastD []) st2 := by
  rfl

/-- Merging two consecutive reads into one does not change the run, provided
the complete lines of the first read are processed without a thrown
exception. -/
theorem streamChunkLoop_merge {Msg : Type} (E : Env Msg) (a b : List Char)
    (rest : List (List Char)) (buf : List Char) (st : StreamState)
    (h : (streamLinesLoop E (splitNl (buf ++ a)).dropLast st).2 = false) :
    streamChunkLoop E ((a ++ b) :: rest) buf st = streamChunkLoop E (a :: b :: rest) buf st := by
  have hsplit : splitNl (buf ++ (a ++ b)) =
      (splitNl (buf ++ a)).dropLast ++ splitNl ((splitNl (buf ++ a)).getLastD [] ++ b) := by
    rw [← List.append_assoc]
    exact splitNl_append (buf ++ a) b
  have hTne := splitNl_ne_nil ((splitNl (buf ++ a)).getLastD [] ++ b)
  cases hq : streamLinesLoop E (splitNl (buf ++ a)).dropLast st with
  | mk st1 bb =>
    have hbb : bb = false := by rw [hq] at h; exact h
    subst hbb
    rw [streamChunkLoop_cons E (a ++ b) rest buf st, streamChunkLoop_cons E a (b :: rest) buf st,
      hsplit, dropLast_append_ne _ _ hTne, getLastD_append_ne _ _ _ hTne,
      streamLinesLoop_append_ok E _ _ st h, hq]
    exact (streamChunkLoop_cons E b rest ((splitNl (buf ++ a)).getLastD []) st1).symm

theorem joinAll_cons (c : List Char) (rest : List (List Char)) :
    joinAll (c :: rest) = c ++ joinAll rest := by
  rfl

/-- Processing the reads one by one equals processing their concatenation as
one single read, provided the single-read processing does not throw. -/
theorem streamChunkLoop_join {Msg : Type} (E : Env Msg) (chunks : List (List Char)) :
    ∀ (buf : List Char) (st : StreamState), chunks ≠ [] →
    (streamChunkLoop E [joinAll chunks] buf st).2.2 = false →
    streamChunkLoop E chunks buf st = streamChunkLoop E [joinAll chunks] buf st := by
  induction chunks with
  | nil => intro buf st hne _; exact absurd rfl hne
  | cons c rest ih =>
    intro buf st _ h
    cases rest with
    | nil =>
      have hc : joinAll [c] = c := by simp [joinAll]
      rw [hc]
    | cons d rest2 =>
      rw [joinAll_cons c (d :: rest2)] at h ⊢
      have hsplit : splitNl (buf ++ (c ++ joinAll (d :: rest2))) =
          (splitNl (buf ++ c)).dropLast ++
            splitNl ((splitNl (buf ++ c)).getLastD [] ++ joinAll (d :: rest2)) := by
        rw [← List.append_assoc]
        exact splitNl_append (buf ++ c) _
      have hTne := splitNl_ne_nil ((splitNl (buf ++ c)).getLastD [] ++ joinAll (d :: rest2))
      have hbig : (streamLinesLoop E
          (splitNl (buf ++ (c ++ joinAll (d :: rest2)))).dropLast st).2 = false := by
        rw [streamChunkLoop_cons] at h
        cases hq : streamLinesLoop E
            (splitNl (buf ++ (c ++ joinAll (d :: rest2)))).dropLast st with
        | mk st2 bb =>
          cases bb with
          | false => rfl
          | true => rw [hq] at h; simp at h
      have hA : (streamLinesLoop E (splitNl (buf ++ c)).dropLast st).2 = false := by
        rw [hsplit, dropLast_append_ne _ _ hTne] at hbig
        exact streamLinesLoop_prefix_ok E _ _ st hbig
      have hmerge := streamChunkLoop_merge E c (joinAll (d :: rest2)) [] buf st hA
      cases hq : streamLinesLoop E (splitNl (buf ++ c)).dropLast st with
      | mk st1 bb =>
        have hbb : bb = false := by rw [hq] at hA; exact hA
        subst hbb
        have e1 : streamChunkLoop E (c :: d :: rest2) buf st =
            streamChunkLoop E (d :: rest2) ((splitNl (buf ++ c)).getLastD []) st1 := by
          rw [streamChunkLoop_cons E c (d :: rest2) buf st, hq]
        have e2 : streamChunkLoop E [c, joinAll (d :: rest2)] buf st =
            streamChunkLoop E [joinAll (d :: rest2)] ((splitNl (buf ++ c)).getLastD []) st1 := by
          rw [streamChunkLoop_cons E c [joinAll (d :: rest2)] buf st, hq]
        have hIHhyp : (streamChunkLoop E [joinAll (d :: rest2)]
            ((splitNl (buf ++ c)).getLastD []) st1).2.2 = false := by
          rw [← e2, ← hmerge]
          exact h
        rw [e1, hmerge, e2]
        exact ih ((splitNl (buf ++ c)).getLastD []) st1 (by simp) hIHhyp

/- ### Event-shape lemmas: blocks are emitted as atomic triples -/

theorem EventShape_append {a b : List Event} (ha : EventShape a) (hb : EventShape b) :
    EventShape (a ++ b) := by
  induction ha with
  | nil => exact hb
  | msgStart s rest _ ih => exact EventShape.msgStart s _ ih
  | msgStop u rest _ ih => exact EventShape.msgStop u _ ih
  | triple i bs d rest _ ih => exact EventShape.triple i bs d _ ih

theorem TriplesOnly_append {a b : List Event} (ha : TriplesOnly a) (hb : TriplesOnly b) :
    TriplesOnly (a ++ b) := by
  induction ha with
  | nil => exact hb
  | triple i bs d rest _ ih => exact TriplesOnly.triple i bs d _ ih

theorem TriplesOnly.toEventShape {l : List Event} (h : TriplesOnly l) : EventShape l := by
  induction h with
  | nil => exact EventShape.nil
  | triple i bs d rest _ ih => exact EventShape.triple i bs d _ ih

theorem TriplesOnly.onlyBlock {l : List Event} (h : TriplesOnly l) : onlyBlockEvents l := by
  induction h with
  | nil => intro e he; exact absurd he (List.not_mem_nil e)
  | triple i bs d rest _ ih =>
    intro e he
    rcases List.mem_cons.mp he with h1 | he
    · subst h1; rfl
    rcases List.mem_cons.mp he with h1 | he
    · subst h1; rfl
    rcases List.mem_cons.mp he with h1 | he
    · subst h1; rfl
    exact ih e he

theorem processTextPart_triples (t : String) (i : Nat) : TriplesOnly (processTextPart t i) :=
  TriplesOnly.triple i _ _ [] TriplesOnly.nil

theorem processToolUsePart_triples (n : String) (args : Json) (i : Nat) (tid : String) :
    TriplesOnly (processToolUsePart n args i tid) :=
  TriplesOnly.triple i _ _ [] TriplesOnly.nil

theorem processToolCalls_triples {Msg : Type} (E : Env Msg) (tcs : List OpenAIToolCallFragment) :
    ∀ (toi acc idc : Nat), TriplesOnly (processToolCalls E tcs toi acc idc).1 := by
  induction tcs with
  | nil => intro toi acc idc; exact TriplesOnly.nil
  | cons tc rest ih =>
    intro toi acc idc
    cases hf : tc.function with
    | none => simpa [processToolCalls, hf] using ih toi acc idc
    | some f =>
      cases hn : f.name with
      | none => simpa [processToolCalls, hf, hn] using ih toi acc idc
      | some n =>
        cases ha : f.arguments with
        | none => simpa [processToolCalls, hf, hn, ha] using ih toi acc idc
        | some a =>
          by_cases hne : n = ""
          · simpa [processToolCalls, hf, hn, ha, hne] using ih toi acc idc
          · by_cases hae : a = ""
            · simpa [processToolCalls, hf, hn, ha, hne, hae] using ih toi acc idc
            · simp only [processToolCalls, hf, hn, ha, if_neg hne, if_neg hae]
              cases hr : processToolCalls E rest (toi + 1)
                  (acc + E.estimate n + E.estimate (Json.stringify (safeJsonParse E.parseJson a)))
                  (idc + 1) with
              | mk evs2 r3 =>
                have h2 := ih (toi + 1)
                  (acc + E.estimate n + E.estimate (Json.stringify (safeJsonParse E.parseJson a)))
                  (idc + 1)
                rw [hr] at h2
                exact TriplesOnly_append (processToolUsePart_triples _ _ _ _) h2

theorem openaiTextStep_triples {Msg : Type} (E : Env Msg) (delta : OpenAIStreamDelta)
    (ti acc : Nat) : TriplesOnly (openaiTextStep E delta ti acc).1 := by
  cases hc : delta.content with
  | none =>
    simp only [openaiTextStep, hc]
    exact TriplesOnly.nil
  | some c =>
    by_cases hce : c = ""
    · simp only [openaiTextStep, hc, if_pos hce]
      exact TriplesOnly.nil
    · simp only [openaiTextStep, hc, if_neg hce]
      exact processTextPart_triples c ti

theorem openaiDeltaStep_triples {Msg : Type} (E : Env Msg) (delta : OpenAIStreamDelta)
    (ti toi acc idc : Nat) :
    TriplesOnly (openaiDeltaStep E delta ti toi acc idc).1.events := by
  unfold openaiDeltaStep
  cases ht : openaiTextStep E delta ti acc with
  | mk evs1 p1 =>
    have h1 : TriplesOnly evs1 := by
      have := openaiTextStep_triples E delta ti acc
      rw [ht] at this
      exact this
    cases htc : delta.tool_calls with
    | none =>
      simp only [htc]
      cases p1 with
      | mk ti2 acc1 => simpa using TriplesOnly_append h1 TriplesOnly.nil
    | some tcs =>
      simp only [htc]
      cases p1 with
      | mk ti2 acc1 =>
        cases hr : processToolCalls E tcs toi acc1 idc with
        | mk evs2 r3 =>
          have h2 := processToolCalls_triples E tcs toi acc1 idc
          rw [hr] at h2
          exact TriplesOnly_append h1 h2

theorem openaiProcessLine_triples {Msg : Type} (E : Env Msg) (s : String)
    (ti toi acc idc : Nat) (r : LineResult) (acc2 id2 : Nat)
    (h : openaiProcessLine E s ti toi acc idc = .produced r acc2 id2) :
    TriplesOnly r.events := by
  unfold openaiProcessLine at h
  cases hp : E.parseChunk s with
  | none => simp [hp] at h
  | some data =>
    simp only [hp] at h
    cases hc : data.choices with
    | none => simp [hc] at h
    | some cl =>
      simp only [hc] at h
      cases cl with
      | nil => simp at h
      | cons choice restc =>
        cases hd : choice.delta with
        | none => simp [hd] at h
        | some delta =>
          simp only [hd] at h
          cases hds : openaiDeltaStep E delta ti toi acc idc with
          | mk r2 p2 =>
            cases p2 with
            | mk a2 i2 =>
              simp only [hds, LineOutcome.produced.injEq] at h
              have hsh := openaiDeltaStep_triples E delta ti toi acc idc
              rw [hds] at hsh
              exact h.1 ▸ hsh

theorem streamLineStep_shape {Msg : Type} (E : Env Msg) (l : List Char) (st : StreamState)
    (h : EventShape st.events) : EventShape (streamLineStep E l st).1.events := by
  unfold streamLineStep
  split
  · exact h
  · dsimp only
    split
    · exact h
    · split
      · exact h
      · exact h
      · next r acc2 id2 heq =>
          exact EventShape_append h
            (openaiProcessLine_triples E _ _ _ _ _ r acc2 id2 heq).toEventShape

theorem streamLinesLoop_shape {Msg : Type} (E : Env Msg) (lines : List (List Char)) :
    ∀ (st : StreamState), EventShape st.events → EventShape (streamLinesLoop E lines st).1.events := by
  induction lines with
  | nil => intro st h; exact h
  | cons l rest ih =>
    intro st h
    rw [streamLinesLoop_cons]
    cases hs : streamLineStep E l st with
    | mk st2 b =>
      have h2 : EventShape st2.events := by
        have := streamLineStep_shape E l st h
        rw [hs] at this
        exact this
      cases b with
      | true => exact h2
      | false => exact ih st2 h2

theorem streamChunkLoop_shape {Msg : Type} (E : Env Msg) (chunks : List (List Char)) :
    ∀ (buf : List Char) (st : StreamState), EventShape st.events →
      EventShape (streamChunkLoop E chunks buf st).2.1.events := by
  induction chunks with
  | nil => intro buf st h; exact h
  | cons c rest ih =>
    intro buf st h
    rw [streamChunkLoop_cons]
    cases hs : streamLinesLoop E (splitNl (buf ++ c)).dropLast st with
    | mk st2 b =>
      have h2 : EventShape st2.events := by
        have := streamLinesLoop_shape E (splitNl (buf ++ c)).dropLast st h
        rw [hs] at this
        exact this
      cases b with
      | true => exact h2
      | false => exact ih ((splitNl (buf ++ c)).getLastD []) st2 h2

theorem streamFinalize_shape {Msg : Type} (E : Env Msg) (req : Option (ClaudeRequest Msg))
    (buf : List Char) (st : StreamState) (h : EventShape st.events) :
    EventShape (streamFinalize E req buf st).events := by
  simp only [streamFinalize]
  split
  · exact EventShape_append h (EventShape.msgStop _ [] EventShape.nil)
  · split
    · exact h
    · exact EventShape_append h (EventShape.msgStop _ [] EventShape.nil)
    · next r acc2 id2 heq =>
        exact EventShape_append
          (EventShape_append h (openaiProcessLine_triples E _ _ _ _ _ r acc2 id2 heq).toEventShape)
          (EventShape.msgStop _ [] EventShape.nil)

theorem processProviderStream_shape {Msg : Type} (E : Env Msg)
    (body : Option (List (List Char))) (req : Option (ClaudeRequest Msg)) :
    EventShape (processProviderStream E body req).events := by
  cases body with
  | none => exact EventShape.nil
  | some chunks =>
    cases hc : streamChunkLoop E chunks [] (initState E) with
    | mk buf p =>
      cases p with
      | mk st b =>
        have h := streamChunkLoop_shape E chunks [] (initState E)
          (EventShape.msgStart (E.genId 0) [] EventShape.nil)
        rw [hc] at h
        simp only [processProviderStream, hc]
        exact streamFinalize_shape E req buf st h

/-- From the shape grammar: every `content_block_start` is immediately
followed by the matching delta and stop. -/
theorem EventShape_pos {evs : List Event} (h : EventShape evs) :
    ∀ (p i : Nat) (bs : BlockStart), evs[p]? = some (Event.content_block_start i bs) →
      (∃ d, evs[p+1]? = some (Event.content_block_delta i d)) ∧
      evs[p+2]? = some (Event.content_block_stop i) := by
  induction h with
  | nil => intro p i bs hp; simp at hp
  | msgStart s rest _ ih =>
    intro p i bs hp
    cases p with
    | zero => simp at hp
    | succ p2 =>
      rw [List.getElem?_cons_succ] at hp
      have hr := ih p2 i bs hp
      refine ⟨?_, ?_⟩
      · obtain ⟨d, hd⟩ := hr.1
        refine ⟨d, ?_⟩
        rw [List.getElem?_cons_succ]
        exact hd
      · have e : p2 + 1 + 2 = (p2 + 2) + 1 := by omega
        rw [e, List.getElem?_cons_succ]
        exact hr.2
  | msgStop u rest _ ih =>
    intro p i bs hp
    cases p with
    | zero => simp at hp
    | succ p2 =>
      rw [List.getElem?_cons_succ] at hp
      have hr := ih p2 i bs hp
      refine ⟨?_, ?_⟩
      · obtain ⟨d, hd⟩ := hr.1
        refine ⟨d, ?_⟩
        rw [List.getElem?_cons_succ]
        exact hd
      · have e : p2 + 1 + 2 = (p2 + 2) + 1 := by omega
        rw [e, List.getElem?_cons_succ]
        exact hr.2
  | triple i2 bs2 d2 rest _ ih =>
    intro p i bs hp
    cases p with
    | zero =>
      simp only [List.getElem?_cons_zero, Option.some.injEq,
        Event.content_block_start.injEq] at hp
      obtain ⟨hi, _⟩ := hp
      subst hi
      exact ⟨⟨d2, by simp⟩, by simp⟩
    | succ p2 =>
      cases p2 with
      | zero => simp at hp
      | succ p3 =>
        cases p3 with
        | zero => simp at hp
        | succ p4 =>
          have e0 : p4 + 1 + 1 + 1 = p4 + 3 := by omega
          rw [e0] at hp
          have hp2 : rest[p4]? = some (Event.content_block_start i bs) := by
            have e1 : p4 + 3 = (p4 + 2) + 1 := by omega
            rw [e1, List.getElem?_cons_succ] at hp
            have e2 : p4 + 2 = (p4 + 1) + 1 := by omega
            rw [e2, List.getElem?_cons_succ, List.getElem?_cons_succ] at hp
            exact hp
          have hr := ih p4 i bs hp2
          refine ⟨?_, ?_⟩
          · obtain ⟨d, hd⟩ := hr.1
            refine ⟨d, ?_⟩
            have e1 : p4 + 3 + 1 = ((p4 + 1) + 1) + 1 + 1 := by omega
            rw [e1, List.getElem?_cons_succ, List.getElem?_cons_succ,
              List.getElem?_cons_succ]
            exact hd
          · have e1 : p4 + 3 + 2 = ((p4 + 2) + 1) + 1 + 1 := by omega
            rw [e1, List.getElem?_cons_succ, List.getElem?_cons_succ,
              List.getElem?_cons_succ]
            exact hr.2

/- ### Message-event bookkeeping: one message_start first, one message_stop
last (when the finalizer completes) -/

theorem onlyBlockEvents_append {a b : List Event} (ha : onlyBlockEvents a)
    (hb : onlyBlockEvents b) : onlyBlockEvents (a ++ b) := by
  intro e he
  rcases List.mem_append.mp he with h1 | h1
  · exact ha e h1
  · exact hb e h1

theorem isBlockEvent_not_msgStart {e : Event} (h : e.isBlockEvent = true) :
    e.isMessageStart = false := by
  cases e <;> first | rfl | simp [Event.isBlockEvent] at h

theorem isBlockEvent_not_msgStop {e : Event} (h : e.isBlockEvent = true) :
    e.isMessageStop = false := by
  cases e <;> first | rfl | simp [Event.isBlockEvent] at h

theorem onlyBlockEvents_countP_msgStart {l : List Event} (h : onlyBlockEvents l) :
    l.countP Event.isMessageStart = 0 := by
  rw [List.countP_eq_zero]
  intro e he
  rw [isBlockEvent_not_msgStart (h e he)]
  simp

theorem onlyBlockEvents_countP_msgStop {l : List Event} (h : onlyBlockEvents l) :
    l.countP Event.isMessageStop = 0 := by
  rw [List.countP_eq_zero]
  intro e he
  rw [isBlockEvent_not_msgStop (h e he)]
  simp

/-- Driver invariant: everything enqueued so far is the single initial
`message_start` followed by block events only. -/
def MsgInv {Msg : Type} (E : Env Msg) (st : StreamState) : Prop :=
  ∃ mid, st.events = Event.message_start (E.genId 0) :: mid ∧ onlyBlockEvents mid

theorem initState_msgInv {Msg : Type} (E : Env Msg) : MsgInv E (initState E) :=
  ⟨[], rfl, fun e he => absurd he (List.not_mem_nil e)⟩

theorem streamLineStep_msgInv {Msg : Type} (E : Env Msg) (l : List Char) (st : StreamState)
    (h : MsgInv E st) : MsgInv E (streamLineStep E l st).1 := by
  unfold streamLineStep
  split
  · exact h
  · dsimp only
    split
    · exact h
    · split
      · exact h
      · exact h
      · next r acc2 id2 heq =>
          obtain ⟨mid, hev, hmid⟩ := h
          refine ⟨mid ++ r.events, ?_, ?_⟩
          · show st.events ++ r.events = _
            rw [hev, List.cons_append]
          · exact onlyBlockEvents_append hmid
              (openaiProcessLine_triples E _ _ _ _ _ r acc2 id2 heq).onlyBlock

theorem streamLinesLoop_msgInv {Msg : Type} (E : Env Msg) (lines : List (List Char)) :
    ∀ (st : StreamState), MsgInv E st → MsgInv E (streamLinesLoop E lines st).1 := by
  induction lines with
  | nil => intro st h; exact h
  | cons l rest ih =>
    intro st h
    rw [streamLinesLoop_cons]
    cases hs : streamLineStep E l st with
    | mk st2 b =>
      have h2 : MsgInv E st2 := by
        have := streamLineStep_msgInv E l st h
        rw [hs] at this
        exact this
      cases b with
      | true => exact h2
      | false => exact ih st2 h2

theorem streamChunkLoop_msgInv {Msg : Type} (E : Env Msg) (chunks : List (List Char)) :
    ∀ (buf : List Char) (st : StreamState), MsgInv E st →
      MsgInv E (streamChunkLoop E chunks buf st).2.1 := by
  induction chunks with
  | nil => intro buf st h; exact h
  | cons c rest ih =>
    intro buf st h
    rw [streamChunkLoop_cons]
    cases hs : streamLinesLoop E (splitNl (buf ++ c)).dropLast st with
    | mk st2 b =>
      have h2 : MsgInv E st2 := by
        have := streamLinesLoop_msgInv E (splitNl (buf ++ c)).dropLast st h
        rw [hs] at this
        exact this
      cases b with
      | true => exact h2
      | false => exact ih ((splitNl (buf ++ c)).getLastD []) st2 h2

/-- When the finalizer completes, the output is message_start, block events,
then exactly one final message_stop; when the trailing-buffer callback
throws, the output is message_start followed by block events only. -/
theorem streamFinalize_events {Msg : Type} (E : Env Msg) (req : Option (ClaudeRequest Msg))
    (buf : List Char) (st : StreamState) (h : MsgInv E st) :
    ((streamFinalize E req buf st).closed = true →
      ∃ mid u, (streamFinalize E req buf st).events =
          Event.message_start (E.genId 0) :: (mid ++ [Event.message_stop u]) ∧
        onlyBlockEvents mid) ∧
    ((streamFinalize E req buf st).closed = false →
      ∃ mid, (streamFinalize E req buf st).events =
          Event.message_start (E.genId 0) :: mid ∧ onlyBlockEvents mid) := by
  obtain ⟨mid, hev, hmid⟩ := h
  simp only [streamFinalize]
  split
  · refine ⟨fun _ => ⟨mid, finalUsage E req st.totalOutputTokens, ?_, hmid⟩,
      fun hc => by simp at hc⟩
    show st.events ++ [Event.message_stop _] = _
    rw [hev, List.cons_append]
  · split
    · exact ⟨fun hc => by simp at hc, fun _ => ⟨mid, hev, hmid⟩⟩
    · refine ⟨fun _ => ⟨mid, finalUsage E req st.totalOutputTokens, ?_, hmid⟩,
        fun hc => by simp at hc⟩
      show st.events ++ [Event.message_stop _] = _
      rw [hev, List.cons_append]
    · next r acc2 id2 heq =>
        refine ⟨fun _ => ⟨mid ++ r.events,
          finalUsage E req (if r.outputTokens ≠ 0 then r.outputTokens else st.totalOutputTokens),
          ?_, ?_⟩, fun hc => by simp at hc⟩
        · show (st.events ++ r.events) ++ [Event.message_stop _] = _
          rw [hev, List.cons_append, List.cons_append, List.append_assoc]
        · exact onlyBlockEvents_append hmid
            (openaiProcessLine_triples E _ _ _ _ _ r acc2 id2 heq).onlyBlock

/- ### Token accumulation: monotone, and totalOutputTokens tracks the
accumulated estimator total exactly -/

theorem processToolCalls_acc_le {Msg : Type} (E : Env Msg) (tcs : List OpenAIToolCallFragment) :
    ∀ (toi acc idc : Nat), acc ≤ (processToolCalls E tcs toi acc idc).2.2.1 := by
  induction tcs with
  | nil => intro toi acc idc; exact le_refl acc
  | cons tc rest ih =>
    intro toi acc idc
    cases hf : tc.function with
    | none => simpa [processToolCalls, hf] using ih toi acc idc
    | some f =>
      cases hn : f.name with
      | none => simpa [processToolCalls, hf, hn] using ih toi acc idc
      | some n =>
        cases ha : f.arguments with
        | none => simpa [processToolCalls, hf, hn, ha] using ih toi acc idc
        | some a =>
          by_cases hne : n = ""
          · simpa [processToolCalls, hf, hn, ha, hne] using ih toi acc idc
          · by_cases hae : a = ""
            · simpa [processToolCalls, hf, hn, ha, hne, hae] using ih toi acc idc
            · simp only [processToolCalls, hf, hn, ha, if_neg hne, if_neg hae]
              cases hr : processToolCalls E rest (toi + 1)
                  (acc + E.estimate n + E.estimate (Json.stringify (safeJsonParse E.parseJson a)))
                  (idc + 1) with
              | mk evs2 r3 =>
                cases r3 with
                | mk toi2 p3 =>
                  cases p3 with
                  | mk acc3 id3 =>
                    have h2 := ih (toi + 1)
                      (acc + E.estimate n +
                        E.estimate (Json.stringify (safeJsonParse E.parseJson a)))
                      (idc + 1)
                    rw [hr] at h2
                    show acc ≤ acc3
                    have h3 : acc ≤ acc + E.estimate n +
                        E.estimate (Json.stringify (safeJsonParse E.parseJson a)) := by omega
                    exact le_trans h3 h2

theorem openaiTextStep_acc_le {Msg : Type} (E : Env Msg) (delta : OpenAIStreamDelta)
    (ti acc : Nat) : acc ≤ (openaiTextStep E delta ti acc).2.2 := by
  cases hc : delta.content with
  | none => simp [openaiTextStep, hc]
  | some c =>
    by_cases hce : c = ""
    · simp [openaiTextStep, hc, hce]
    · simp only [openaiTextStep, hc, if_neg hce]
      show acc ≤ acc + E.estimate c
      omega

theorem openaiDeltaStep_out {Msg : Type} (E : Env Msg) (delta : OpenAIStreamDelta)
    (ti toi acc idc : Nat) :
    acc ≤ (openaiDeltaStep E delta ti toi acc idc).2.1 ∧
    (openaiDeltaStep E delta ti toi acc idc).1.outputTokens =
      (openaiDeltaStep E delta ti toi acc idc).2.1 := by
  unfold openaiDeltaStep
  cases ht : openaiTextStep E delta ti acc with
  | mk evs1 p1 =>
    cases p1 with
    | mk ti2 acc1 =>
      have h1 : acc ≤ acc1 := by
        have := openaiTextStep_acc_le E delta ti acc
        rw [ht] at this
        exact this
      cases htc : delta.tool_calls with
      | none =>
        simp only [htc]
        exact ⟨h1, by trivial⟩
      | some tcs =>
        simp only [htc]
        cases hr : processToolCalls E tcs toi acc1 idc with
        | mk evs2 r3 =>
          cases r3 with
          | mk toi2 p3 =>
            cases p3 with
            | mk acc3 id3 =>
              have h2 := processToolCalls_acc_le E tcs toi acc1 idc
              rw [hr] at h2
              exact ⟨le_trans h1 h2, by trivial⟩

theorem openaiProcessLine_out {Msg : Type} (E : Env Msg) (s : String)
    (ti toi acc idc : Nat) (r : LineResult) (acc2 id2 : Nat)
    (h : openaiProcessLine E s ti toi acc idc = .produced r acc2 id2) :
    acc ≤ acc2 ∧ r.outputTokens = acc2 := by
  unfold openaiProcessLine at h
  cases hp : E.parseChunk s with
  | none => simp [hp] at h
  | some data =>
    simp only [hp] at h
    cases hc : data.choices with
    | none => simp [hc] at h
    | some cl =>
      simp only [hc] at h
      cases cl with
      | nil => simp at h
      | cons choice restc =>
        cases hd : choice.delta with
        | none => simp [hd] at h
        | some delta =>
          simp only [hd] at h
          cases hds : openaiDeltaStep E delta ti toi acc idc with
          | mk r2 p2 =>
            cases p2 with
            | mk a2 i2 =>
              simp only [hds, LineOutcome.produced.injEq] at h
              obtain ⟨h1, h2, h3⟩ := h
              subst h1
              subst h2
              have hout := openaiDeltaStep_out E delta ti toi acc idc
              rw [hds] at hout
              exact hout

theorem streamLineStep_acc {Msg : Type} (E : Env Msg) (l : List Char) (st : StreamState)
    (hinv : st.totalOutputTokens = st.acc) :
    st.acc ≤ (streamLineStep E l st).1.acc ∧
    (streamLineStep E l st).1.totalOutputTokens = (streamLineStep E l st).1.acc := by
  unfold streamLineStep
  split
  · exact ⟨le_refl _, hinv⟩
  · dsimp only
    split
    · exact ⟨le_refl _, hinv⟩
    · split
      · exact ⟨le_refl _, hinv⟩
      · exact ⟨le_refl _, hinv⟩
      · next r acc2 id2 heq =>
          have hout := openaiProcessLine_out E _ _ _ _ _ r acc2 id2 heq
          refine ⟨hout.1, ?_⟩
          show (if r.outputTokens ≠ 0 then r.outputTokens else st.totalOutputTokens) = acc2
          rw [hout.2]
          by_cases hz : acc2 = 0
          · subst hz
            have hsa : st.acc = 0 := Nat.le_zero.mp hout.1
            simp [hinv, hsa]
          · rw [if_pos hz]

theorem streamLinesLoop_acc {Msg : Type} (E : Env Msg) (lines : List (List Char)) :
    ∀ (st : StreamState), st.totalOutputTokens = st.acc →
      st.acc ≤ (streamLinesLoop E lines st).1.acc ∧
      (streamLinesLoop E lines st).1.totalOutputTokens = (streamLinesLoop E lines st).1.acc := by
  induction lines with
  | nil => intro st h; exact ⟨le_refl _, h⟩
  | cons l rest ih =>
    intro st h
    rw [streamLinesLoop_cons]
    cases hs : streamLineStep E l st with
    | mk st2 b =>
      have h2 := streamLineStep_acc E l st h
      rw [hs] at h2
      cases b with
      | true => exact h2
      | false =>
        have h3 := ih st2 h2.2
        exact ⟨le_trans h2.1 h3.1, h3.2⟩

theorem streamChunkLoop_acc {Msg : Type} (E : Env Msg) (chunks : List (List Char)) :
    ∀ (buf : List Char) (st : StreamState), st.totalOutputTokens = st.acc →
      st.acc ≤ (streamChunkLoop E chunks buf st).2.1.acc ∧
      (streamChunkLoop E chunks buf st).2.1.totalOutputTokens =
        (streamChunkLoop E chunks buf st).2.1.acc := by
  induction chunks with
  | nil => intro buf st h; exact ⟨le_refl _, h⟩
  | cons c rest ih =>
    intro buf st h
    rw [streamChunkLoop_cons]
    cases hs : streamLinesLoop E (splitNl (buf ++ c)).dropLast st with
    | mk st2 b =>
      have h2 := streamLinesLoop_acc E (splitNl (buf ++ c)).dropLast st h
      rw [hs] at h2
      cases b with
      | true => exact h2
      | false =>
        have h3 := ih ((splitNl (buf ++ c)).getLastD []) st2 h2.2
        exact ⟨le_trans h2.1 h3.1, h3.2⟩

/-- Splitting the read list: the loop processes a prefix of reads first, and
continues with the rest unless an exception already broke it. -/
theorem streamChunkLoop_append {Msg : Type} (E : Env Msg) (A B : List (List Char)) :
    ∀ (buf : List Char) (st : StreamState),
      streamChunkLoop E (A ++ B) buf st =
        match streamChunkLoop E A buf st with
        | (buf2, st2, true) => (buf2, st2, true)
        | (buf2, st2, false) => streamChunkLoop E B buf2 st2 := by
  induction A with
  | nil => intro buf st; rfl
  | cons c rest ih =>
    intro buf st
    rw [List.cons_append, streamChunkLoop_cons E c (rest ++ B) buf st,
      streamChunkLoop_cons E c rest buf st]
    cases hs : streamLinesLoop E (splitNl (buf ++ c)).dropLast st with
    | mk st2 b =>
      cases b with
      | true => rfl
      | false => exact ih ((splitNl (buf ++ c)).getLastD []) st2

/-- The running output total at any prefix of the reads never exceeds the
running output total over all reads. -/
theorem streamChunkLoop_total_mono {Msg : Type} (E : Env Msg) (A B : List (List Char))
    (buf : List Char) (st : StreamState) (h : st.totalOutputTokens = st.acc) :
    (streamChunkLoop E A buf st).2.1.totalOutputTokens ≤
      (streamChunkLoop E (A ++ B) buf st).2.1.totalOutputTokens := by
  rw [streamChunkLoop_append E A B buf st]
  cases hA : streamChunkLoop E A buf st with
  | mk buf2 p =>
    cases p with
    | mk st2 b =>
      have h2 := streamChunkLoop_acc E A buf st h
      rw [hA] at h2
      cases b with
      | true => exact le_refl _
      | false =>
        have h3 := streamChunkLoop_acc E B buf2 st2 h2.2
        calc st2.totalOutputTokens = st2.acc := h2.2
          _ ≤ (streamChunkLoop E B buf2 st2).2.1.acc := h3.1
          _ = (streamChunkLoop E B buf2 st2).2.1.totalOutputTokens := h3.2.symm

/- ### Final usage record -/

/-- Whenever the finalizer completes, the last emitted event is the single
`message_stop`, whose usage (if the original request was supplied) carries
the estimated input tokens and, as output tokens, exactly the accumulated
estimator total of the whole run. -/
theorem processProviderStream_usage {Msg : Type} (E : Env Msg) (chunks : List (List Char))
    (req : Option (ClaudeRequest Msg))
    (hclosed : (processProviderStream E (some chunks) req).closed = true) :
    (processProviderStream E (some chunks) req).events.getLast? =
      some (Event.message_stop (finalUsage E req (streamAccTotal E chunks))) := by
  cases hc : streamChunkLoop E chunks [] (initState E) with
  | mk buf p =>
    cases p with
    | mk st b =>
      have hinv := streamChunkLoop_acc E chunks [] (initState E) rfl
      rw [hc] at hinv
      dsimp only at hinv
      simp only [processProviderStream, hc] at hclosed ⊢
      simp only [streamAccTotal, hc]
      by_cases hb : isBlank buf = true
      · simp only [streamFinalize, if_pos hb]
        rw [List.getLast?_concat, hinv.2]
      · cases ho : openaiProcessLine E (String.mk (buf.drop 6)) st.textBlockIndex
            st.toolUseBlockIndex st.acc st.idCtr with
        | thrown =>
          simp [streamFinalize, if_neg hb, ho] at hclosed
        | skip =>
          simp only [streamFinalize, if_neg hb, ho]
          rw [List.getLast?_concat, hinv.2]
        | produced r acc2 id2 =>
          simp only [streamFinalize, if_neg hb, ho]
          rw [List.getLast?_concat]
          have hout := openaiProcessLine_out E _ _ _ _ _ r acc2 id2 ho
          rw [hout.2]
          by_cases hz : acc2 = 0
          · subst hz
            have hsa : st.acc = 0 := Nat.le_zero.mp hout.1
            simp [hinv.2, hsa]
          · rw [if_pos hz]

/-- Whether the outbound stream reaches `controller.close()` does not depend
on whether an original request was supplied: omitting the request only omits
usage, it never fails the stream. -/
theorem processProviderStream_closed_indep {Msg : Type} (E : Env Msg)
    (body : Option (List (List Char))) (req1 req2 : Option (ClaudeRequest Msg)) :
    (processProviderStream E body req1).closed = (processProviderStream E body req2).closed := by
  cases body with
  | none => rfl
  | some chunks =>
    cases hc : streamChunkLoop E chunks [] (initState E) with
    | mk buf p =>
      cases p with
      | mk st b =>
        simp only [processProviderStream, hc]
        by_cases hb : isBlank buf = true
        · simp only [streamFinalize, if_pos hb]
        · cases ho : openaiProcessLine E (String.mk (buf.drop 6)) st.textBlockIndex
              st.toolUseBlockIndex st.acc st.idCtr with
          | thrown => simp only [streamFinalize, if_neg hb, ho]
          | skip => simp only [streamFinalize, if_neg hb, ho]
          | produced r acc2 id2 => simp only [streamFinalize, if_neg hb, ho]

/- ### Per-line behavior helpers -/

theorem openaiProcessLine_skipOutcome {Msg : Type} (E : Env Msg) (s : String)
    (ti toi acc idc : Nat) (ch : OpenAIStreamResponse)
    (hp : E.parseChunk s = some ch) (hch : ch.choices = none ∨ ch.choices = some []) :
    openaiProcessLine E s ti toi acc idc = .skip := by
  unfold openaiProcessLine
  rcases hch with h | h
  · simp [hp, h]
  · simp [hp, h]

theorem streamLineStep_skipline {Msg : Type} (E : Env Msg) (l : List Char) (st : StreamState)
    (ch : OpenAIStreamResponse)
    (hbl : isBlank l = false) (hpre : dataMarker.isPrefixOf l = true)
    (hdone : String.mk (l.drop 6) ≠ "[DONE]")
    (hp : E.parseChunk (String.mk (l.drop 6)) = some ch)
    (hch : ch.choices = none ∨ ch.choices = some []) :
    streamLineStep E l st = (st, false) := by
  unfold streamLineStep
  rw [hbl, hpre]
  simp only [Bool.not_true, Bool.or_false]
  rw [if_neg (by simp : ¬ ((false : Bool) = true))]
  rw [if_neg hdone, openaiProcessLine_skipOutcome E _ _ _ _ _ ch hp hch]

theorem streamLineStep_thrownline {Msg : Type} (E : Env Msg) (l : List Char) (st : StreamState)
    (hbl : isBlank l = false) (hpre : dataMarker.isPrefixOf l = true)
    (hdone : String.mk (l.drop 6) ≠ "[DONE]")
    (hp : E.parseChunk (String.mk (l.drop 6)) = none) :
    streamLineStep E l st = (st, true) := by
  unfold streamLineStep
  rw [hbl, hpre]
  simp only [Bool.not_true, Bool.or_false]
  rw [if_neg (by simp : ¬ ((false : Bool) = true))]
  rw [if_neg hdone]
  have hthrown : openaiProcessLine E (String.mk (l.drop 6)) st.textBlockIndex
      st.toolUseBlockIndex st.acc st.idCtr = .thrown := by
    unfold openaiProcessLine
    simp [hp]
  rw [hthrown]

/- ### Single-read characterizations -/

theorem dataMarker_no_nl : '\n' ∉ dataMarker := by decide

theorem isBlank_dataMarker_append (x : List Char) : isBlank (dataMarker ++ x) = false := by
  have hd : dataMarker = 'd' :: ("ata: ").toList := by decide
  rw [hd, List.cons_append]
  simp [isBlank]

theorem dataMarker_isPrefixOf_append (x : List Char) :
    dataMarker.isPrefixOf (dataMarker ++ x) = true := by
  rw [List.isPrefixOf_iff_prefix]
  exact List.prefix_append dataMarker x

theorem dataMarker_append_drop (x : List Char) : (dataMarker ++ x).drop 6 = x :=
  List.drop_left dataMarker x

/-- A body consisting of one single read that ends with the only newline: the
complete line is processed in the loop, the buffer ends empty, and the
finalizer appends `message_stop`.  An in-loop exception (thrown outcome)
still reaches `message_stop` because the buffer is blank. -/
theorem run_single_line {Msg : Type} (E : Env Msg) (req : Option (ClaudeRequest Msg))
    (s : String) (hnl : '\n' ∉ s.toList) (hdone : s ≠ "[DONE]") :
    processProviderStream E (some [dataMarker ++ s.toList ++ ['\n']]) req =
      match openaiProcessLine E s 0 0 0 1 with
      | .thrown =>
          ⟨[Event.message_start (E.genId 0), Event.message_stop (finalUsage E req 0)], true⟩
      | .skip =>
          ⟨[Event.message_start (E.genId 0), Event.message_stop (finalUsage E req 0)], true⟩
      | .produced r _ _ =>
          ⟨Event.message_start (E.genId 0) :: (r.events ++
            [Event.message_stop (finalUsage E req
              (if r.outputTokens ≠ 0 then r.outputTokens else 0))]), true⟩ := by
  have hu : '\n' ∉ dataMarker ++ s.toList := by
    intro hm
    rcases List.mem_append.mp hm with h | h
    · exact dataMarker_no_nl h
    · exact hnl h
  have hsp : splitNl ([] ++ (dataMarker ++ s.toList ++ ['\n'])) = [dataMarker ++ s.toList, []] := by
    rw [List.nil_append, List.append_assoc, ← List.append_assoc]
    exact splitNl_line (dataMarker ++ s.toList) hu
  have hstep0 : streamLineStep E (dataMarker ++ s.toList) (initState E) =
      match openaiProcessLine E s 0 0 0 1 with
      | .thrown => (initState E, true)
      | .skip => (initState E, false)
      | .produced r acc2 id2 =>
        ({ initState E with
            textBlockIndex := r.textBlockIndex,
            toolUseBlockIndex := r.toolUseBlockIndex,
            totalOutputTokens := if r.outputTokens ≠ 0 then r.outputTokens else 0,
            acc := acc2,
            idCtr := id2,
            events := (initState E).events ++ r.events }, false) := by
    unfold streamLineStep
    rw [isBlank_dataMarker_append, dataMarker_isPrefixOf_append]
    simp only [Bool.not_true, Bool.or_false]
    rw [if_neg (by simp : ¬ ((false : Bool) = true))]
    rw [dataMarker_append_drop]
    rw [show String.mk s.toList = s from rfl]
    rw [if_neg hdone]
    rfl
  cases ho : openaiProcessLine E s 0 0 0 1 with
  | thrown =>
    rw [ho] at hstep0
    simp only [processProviderStream, streamChunkLoop_cons, hsp]
    rw [show ([dataMarker ++ s.toList, []] : List (List Char)).dropLast =
      [dataMarker ++ s.toList] from rfl]
    rw [streamLinesLoop_cons, hstep0]
    rfl
  | skip =>
    rw [ho] at hstep0
    simp only [processProviderStream, streamChunkLoop_cons, hsp]
    rw [show ([dataMarker ++ s.toList, []] : List (List Char)).dropLast =
      [dataMarker ++ s.toList] from rfl]
    rw [streamLinesLoop_cons, hstep0]
    rfl
  | produced r acc2 id2 =>
    rw [ho] at hstep0
    simp only [processProviderStream, streamChunkLoop_cons, hsp]
    rw [show ([dataMarker ++ s.toList, []] : List (List Char)).dropLast =
      [dataMarker ++ s.toList] from rfl]
    rw [streamLinesLoop_cons, hstep0]
    rfl

/-- Claim C5 (amended): at end of stream a non-blank remainder is processed
as one final line by unconditionally cutting off its first six characters
and handing the rest to the callback: the data-marker prefix is not
required, the termination sentinel is not recognized, and a callback that
throws (for instance on the sliced sentinel text) skips `message_stop` and
leaves the outbound stream unclosed.  Stated for a body that is one single
read without newline, so that the whole read is the trailing buffer. -/
theorem C5_remainder_processing {Msg : Type} (E : Env Msg) (req : Option (ClaudeRequest Msg))
    (u : List Char) (hnl : '\n' ∉ u) (hbl : isBlank u = false) :
    processProviderStream E (some [u]) req =
      match openaiProcessLine E (String.mk (u.drop 6)) 0 0 0 1 with
      | .thrown => ⟨[Event.message_start (E.genId 0)], false⟩
      | .skip =>
          ⟨[Event.message_start (E.genId 0), Event.message_stop (finalUsage E req 0)], true⟩
      | .produced r _ _ =>
          ⟨Event.message_start (E.genId 0) :: (r.events ++
            [Event.message_stop (finalUsage E req
              (if r.outputTokens ≠ 0 then r.outputTokens else 0))]), true⟩ := by
  have hsp : splitNl ([] ++ u) = [u] := by
    rw [List.nil_append]
    exact splitNl_no_nl u hnl
  simp only [processProviderStream, streamChunkLoop_cons, hsp]
  rw [show ([u] : List (List Char)).dropLast = [] from rfl]
  rw [show streamLinesLoop E [] (initState E) = (initState E, false) from rfl]
  simp only [streamChunkLoop]
  rw [show ([u] : List (List Char)).getLastD [] = u from rfl]
  simp only [streamFinalize, hbl]
  rw [if_neg (by simp : ¬ ((false : Bool) = true))]
  cases ho : openaiProcessLine E (String.mk (u.drop 6)) 0 0 0 1 with
  | thrown =>
    rw [show (initState E).textBlockIndex = 0 from rfl,
      show (initState E).toolUseBlockIndex = 0 from rfl,
      show (initState E).acc = 0 from rfl,
      show (initState E).idCtr = 1 from rfl, ho]
    rfl
  | skip =>
    rw [show (initState E).textBlockIndex = 0 from rfl,
      show (initState E).toolUseBlockIndex = 0 from rfl,
      show (initState E).acc = 0 from rfl,
      show (initState E).idCtr = 1 from rfl, ho]
    rfl
  | produced r acc2 id2 =>
    rw [show (initState E).textBlockIndex = 0 from rfl,
      show (initState E).toolUseBlockIndex = 0 from rfl,
      show (initState E).acc = 0 from rfl,
      show (initState E).idCtr = 1 from rfl, ho]
    rfl

/- ### Claim theorems -/

/-- Claim C1, counterexample: a data line whose payload is not valid JSON
(`JSON.parse` throws, modelled by `parseChunk` returning `none` on
"\x7bbad") aborts the read loop, so a following well-formed line that alone
would produce three block events produces nothing: the claim that a
malformed record is skipped in isolation and subsequent lines keep emitting
is false on the code. -/
theorem C1_counterexample :
    processProviderStream exEnv
        (some [("data: \x7bbad\ndata: " ++ hiPayload ++ "\n").toList]) none =
      ⟨[Event.message_start ("0"), Event.message_stop none], true⟩ ∧
    (processProviderStream exEnv
        (some [("data: " ++ hiPayload ++ "\n").toList]) none).events.countP
      Event.isBlockEvent = 3 :=
  ⟨by decide, by decide⟩

/-- Claim C1 (amended): a non-blank data line (not the sentinel) whose
payload parses as a chunk with absent or empty choices is skipped with the
state unchanged and the loop continues with the remaining lines; a payload
on which the parser throws stops the loop at once, so no subsequent line is
processed (finalization still runs afterwards). -/
theorem C1_line_isolation {Msg : Type} (E : Env Msg) (l : List Char)
    (rest : List (List Char)) (st : StreamState)
    (hbl : isBlank l = false) (hpre : dataMarker.isPrefixOf l = true)
    (hdone : String.mk (l.drop 6) ≠ "[DONE]") :
    (∀ ch, E.parseChunk (String.mk (l.drop 6)) = some ch →
      (ch.choices = none ∨ ch.choices = some []) →
      streamLinesLoop E (l :: rest) st = streamLinesLoop E rest st) ∧
    (E.parseChunk (String.mk (l.drop 6)) = none →
      streamLinesLoop E (l :: rest) st = (st, true)) := by
  constructor
  · intro ch hp hch
    rw [streamLinesLoop_cons, streamLineStep_skipline E l st ch hbl hpre hdone hp hch]
  · intro hp
    rw [streamLinesLoop_cons, streamLineStep_thrownline E l st hbl hpre hdone hp]

/-- Witness for C1: a data line carrying a chunk with empty choices is
skipped and the following line is still processed. -/
theorem C1_witness :
    isBlank (("data: " ++ emptyChoicesPayload).toList) = false ∧
    exEnv.parseChunk (String.mk ((("data: " ++ emptyChoicesPayload).toList).drop 6)) =
      some ⟨some []⟩ ∧
    streamLinesLoop exEnv [("data: " ++ emptyChoicesPayload).toList,
        ("data: " ++ hiPayload).toList] (initState exEnv) =
      streamLinesLoop exEnv [("data: " ++ hiPayload).toList] (initState exEnv) :=
  ⟨by decide, by decide,
    (C1_line_isolation exEnv (("data: " ++ emptyChoicesPayload).toList)
        [("data: " ++ hiPayload).toList] (initState exEnv)
        (by decide) (by decide) (by decide)).1
      ⟨some []⟩ (by decide) (Or.inr rfl)⟩

/-- Claim C2, counterexample: the same byte stream delivered as two reads
versus one read yields different block-level events, because the malformed
first line throws while the trailing buffer differs between the two
deliveries: with two reads the valid payload was never read, with one read
it sits in the buffer and the finalizer emits its text triple. -/
theorem C2_counterexample :
    joinAll [("data: \x7bbad\n").toList, ("data: " ++ hiPayload).toList] =
      ("data: \x7bbad\ndata: " ++ hiPayload).toList ∧
    (processProviderStream exEnv
        (some [("data: \x7bbad\n").toList, ("data: " ++ hiPayload).toList]) none).events.filter
      Event.isBlockEvent ≠
    (processProviderStream exEnv
        (some [("data: \x7bbad\ndata: " ++ hiPayload).toList]) none).events.filter
      Event.isBlockEvent :=
  ⟨by decide, by decide⟩

/-- Claim C2 (amended): for every upstream byte stream and every way of
splitting it into reads, the whole outbound run (all events, message-level
and block-level alike) is identical to processing the concatenation as one
single read, provided the single-read processing raises no exception. -/
theorem C2_chunk_invariance {Msg : Type} (E : Env Msg) (chunks : List (List Char))
    (req : Option (ClaudeRequest Msg))
    (h : (streamChunkLoop E [joinAll chunks] [] (initState E)).2.2 = false) :
    processProviderStream E (some chunks) req =
      processProviderStream E (some [joinAll chunks]) req := by
  cases chunks with
  | nil => rfl
  | cons c rest =>
    have hj := streamChunkLoop_join E (c :: rest) [] (initState E) (by simp) h
    simp only [processProviderStream, hj]

/-- Witness for C2: a line carrying empty choices split mid-payload into two
reads produces the same run as the single read. -/
theorem C2_witness :
    (streamChunkLoop exEnv
        [joinAll [("data: \x7b\"choi").toList, ("ces\":[]\x7d\n").toList]] []
        (initState exEnv)).2.2 = false ∧
    processProviderStream exEnv
        (some [("data: \x7b\"choi").toList, ("ces\":[]\x7d\n").toList]) none =
      processProviderStream exEnv
        (some [joinAll [("data: \x7b\"choi").toList, ("ces\":[]\x7d\n").toList]]) none :=
  ⟨by decide,
    C2_chunk_invariance exEnv [("data: \x7b\"choi").toList, ("ces\":[]\x7d\n").toList]
      none (by decide)⟩

/-- Claim C3, counterexample: a stream ending in a non-blank buffer whose
sliced payload makes the parser throw never emits `message_stop` at all (and
the outbound stream errors instead of closing), so the claim that exactly
one `message_stop` follows all block events on every stream is false. -/
theorem C3_counterexample :
    processProviderStream exEnv (some [("data: \x7bbad").toList]) none =
      ⟨[Event.message_start ("0")], false⟩ ∧
    (processProviderStream exEnv (some [("data: \x7bbad").toList]) none).events.countP
      Event.isMessageStop = 0 :=
  ⟨by decide, by decide⟩

/-- Claim C3 (amended): on every stream with a readable body, exactly one
`message_start` is emitted and it precedes every other event; when the
trailing-buffer processing does not throw, exactly one `message_stop` is
emitted and it follows every other event; when it throws, no `message_stop`
is emitted at all; and the accumulated output-token total is monotonically
non-decreasing across the processing of the reads. -/
theorem C3_lifecycle {Msg : Type} (E : Env Msg) (chunks : List (List Char))
    (req : Option (ClaudeRequest Msg)) :
    (processProviderStream E (some chunks) req).events.head? =
        some (Event.message_start (E.genId 0)) ∧
    (processProviderStream E (some chunks) req).events.countP Event.isMessageStart = 1 ∧
    ((processProviderStream E (some chunks) req).closed = true →
      (processProviderStream E (some chunks) req).events.countP Event.isMessageStop = 1 ∧
      ∃ u, (processProviderStream E (some chunks) req).events.getLast? =
        some (Event.message_stop u)) ∧
    ((processProviderStream E (some chunks) req).closed = false →
      (processProviderStream E (some chunks) req).events.countP Event.isMessageStop = 0) ∧
    (∀ A B, chunks = A ++ B →
      (streamChunkLoop E A [] (initState E)).2.1.totalOutputTokens ≤
        (streamChunkLoop E chunks [] (initState E)).2.1.totalOutputTokens) := by
  cases hc : streamChunkLoop E chunks [] (initState E) with
  | mk buf p =>
    cases p with
    | mk st b =>
      have hmsg : MsgInv E st := by
        have := streamChunkLoop_msgInv E chunks [] (initState E) (initState_msgInv E)
        rw [hc] at this
        exact this
      have hfin := streamFinalize_events E req buf st hmsg
      simp only [processProviderStream, hc]
      refine ⟨?_, ?_, ?_, ?_, ?_⟩
      · cases hcl : (streamFinalize E req buf st).closed with
        | true =>
          obtain ⟨mid, u, hev, hmid⟩ := hfin.1 hcl
          rw [hev]
          rfl
        | false =>
          obtain ⟨mid, hev, hmid⟩ := hfin.2 hcl
          rw [hev]
          rfl
      · cases hcl : (streamFinalize E req buf st).closed with
        | true =>
          obtain ⟨mid, u, hev, hmid⟩ := hfin.1 hcl
          rw [hev]
          simp [List.countP_cons, List.countP_append,
            onlyBlockEvents_countP_msgStart hmid, Event.isMessageStart]
        | false =>
          obtain ⟨mid, hev, hmid⟩ := hfin.2 hcl
          rw [hev]
          simp [List.countP_cons, onlyBlockEvents_countP_msgStart hmid, Event.isMessageStart]
      · intro hcl
        obtain ⟨mid, u, hev, hmid⟩ := hfin.1 hcl
        constructor
        · rw [hev]
          simp [List.countP_cons, List.countP_append,
            onlyBlockEvents_countP_msgStop hmid, Event.isMessageStop]
        · refine ⟨u, ?_⟩
          rw [hev, show Event.message_start (E.genId 0) :: (mid ++ [Event.message_stop u]) =
            (Event.message_start (E.genId 0) :: mid) ++ [Event.message_stop u] from rfl,
            List.getLast?_concat]
      · intro hcl
        obtain ⟨mid, hev, hmid⟩ := hfin.2 hcl
        rw [hev]
        simp [List.countP_cons, onlyBlockEvents_countP_msgStop hmid, Event.isMessageStop]
      · intro A B hAB
        subst hAB
        have hm := streamChunkLoop_total_mono E A B [] (initState E) rfl
        rw [hc] at hm
        exact hm

/-- Witness for C3: a clean one-line stream closes with the single final
`message_stop`. -/
theorem C3_witness :
    (processProviderStream exEnv
        (some [("data: " ++ hiPayload ++ "\n").toList]) (some exReq)).closed = true ∧
    ((processProviderStream exEnv
        (some [("data: " ++ hiPayload ++ "\n").toList]) (some exReq)).events.countP
      Event.isMessageStop = 1 ∧
    ∃ u, (processProviderStream exEnv
        (some [("data: " ++ hiPayload ++ "\n").toList]) (some exReq)).events.getLast? =
      some (Event.message_stop u)) :=
  ⟨by decide,
    (C3_lifecycle exEnv [("data: " ++ hiPayload ++ "\n").toList] (some exReq)).2.2.1
      (by decide)⟩

/-- Claim C4: in every emitted event stream, each `content_block_start` with
index i is immediately followed, before any other event, by exactly one
`content_block_delta` with index i and then exactly one `content_block_stop`
with index i: fragments are emitted as atomic triples. -/
theorem C4_block_triples {Msg : Type} (E : Env Msg) (body : Option (List (List Char)))
    (req : Option (ClaudeRequest Msg)) (p i : Nat) (bs : BlockStart)
    (h : (processProviderStream E body req).events[p]? =
      some (Event.content_block_start i bs)) :
    (∃ d, (processProviderStream E body req).events[p + 1]? =
      some (Event.content_block_delta i d)) ∧
    (processProviderStream E body req).events[p + 2]? =
      some (Event.content_block_stop i) :=
  EventShape_pos (processProviderStream_shape E body req) p i bs h

/-- Witness for C4: the text triple of the one-line stream sits at positions
1, 2, 3. -/
theorem C4_witness :
    (processProviderStream exEnv
        (some [("data: " ++ hiPayload ++ "\n").toList]) none).events[1]? =
      some (Event.content_block_start 0 BlockStart.text) ∧
    ((∃ d, (processProviderStream exEnv
        (some [("data: " ++ hiPayload ++ "\n").toList]) none).events[1 + 1]? =
      some (Event.content_block_delta 0 d)) ∧
    (processProviderStream exEnv
        (some [("data: " ++ hiPayload ++ "\n").toList]) none).events[1 + 2]? =
      some (Event.content_block_stop 0)) :=
  ⟨by decide,
    C4_block_triples exEnv (some [("data: " ++ hiPayload ++ "\n").toList]) none 1 0
      BlockStart.text (by decide)⟩

/-- Claim C5, counterexample: a trailing remainder that is exactly the
sentinel line "data: [DONE]" is not recognized and discarded as the claim
states: the finalizer slices six characters and hands "[DONE]" to
`JSON.parse`, which throws, so no `message_stop` is emitted and the outbound
stream is never closed. -/
theorem C5_counterexample :
    processProviderStream exEnv (some [("data: [DONE]").toList]) none =
      ⟨[Event.message_start ("0")], false⟩ := by
  decide

/-- Witness for C5: a remainder that does not even start with the data
marker is still processed after cutting six characters, here producing a
full text triple. -/
theorem C5_witness :
    ('\n' ∉ (("xxxxxx" ++ hiPayload).toList)) ∧
    isBlank (("xxxxxx" ++ hiPayload).toList) = false ∧
    processProviderStream exEnv (some [("xxxxxx" ++ hiPayload).toList]) none =
      (match openaiProcessLine exEnv
          (String.mk ((("xxxxxx" ++ hiPayload).toList).drop 6)) 0 0 0 1 with
      | .thrown => ⟨[Event.message_start (exEnv.genId 0)], false⟩
      | .skip =>
          ⟨[Event.message_start (exEnv.genId 0),
            Event.message_stop (finalUsage exEnv none 0)], true⟩
      | .produced r _ _ =>
          ⟨Event.message_start (exEnv.genId 0) :: (r.events ++
            [Event.message_stop (finalUsage exEnv none
              (if r.outputTokens ≠ 0 then r.outputTokens else 0))]), true⟩) :=
  ⟨by decide, by decide,
    C5_remainder_processing exEnv none (("xxxxxx" ++ hiPayload).toList)
      (by decide) (by decide)⟩

/-- Claim C6: at stream end (whenever the finalizer completes), with an
original request supplied the final `message_stop` carries usage with
input_tokens from `estimateMessages` on the original messages and
output_tokens equal to the running accumulated total; with no original
request, usage is omitted; and whether the stream completes does not depend
on whether the request was supplied. -/
theorem C6_final_usage {Msg : Type} (E : Env Msg) (chunks : List (List Char))
    (q : ClaudeRequest Msg) :
    ((processProviderStream E (some chunks) (some q)).closed = true →
      (processProviderStream E (some chunks) (some q)).events.getLast? =
        some (Event.message_stop
          (some ⟨E.estimateMessages q.messages, streamAccTotal E chunks⟩))) ∧
    ((processProviderStream E (some chunks) none).closed = true →
      (processProviderStream E (some chunks) none).events.getLast? =
        some (Event.message_stop none)) ∧
    (processProviderStream E (some chunks) (some q)).closed =
      (processProviderStream E (some chunks) none).closed := by
  refine ⟨?_, ?_, ?_⟩
  · intro h
    have hu := processProviderStream_usage E chunks (some q) h
    simpa [finalUsage] using hu
  · intro h
    have hu := processProviderStream_usage E chunks none h
    simpa [finalUsage] using hu
  · exact processProviderStream_closed_indep E (some chunks) (some q) none

/-- Witness for C6: the clean one-line stream closes and its final
`message_stop` carries the estimated input tokens and the accumulated output
total. -/
theorem C6_witness :
    (processProviderStream exEnv
        (some [("data: " ++ hiPayload ++ "\n").toList]) (some exReq)).closed = true ∧
    (processProviderStream exEnv
        (some [("data: " ++ hiPayload ++ "\n").toList]) (some exReq)).events.getLast? =
      some (Event.message_stop
        (some ⟨exEnv.estimateMessages exReq.messages,
          streamAccTotal exEnv [("data: " ++ hiPayload ++ "\n").toList]⟩)) :=
  ⟨by decide,
    (C6_final_usage exEnv [("data: " ++ hiPayload ++ "\n").toList] exReq).1 (by decide)⟩

/-- Claim C7: a single chunk carrying both a nonempty text fragment and one
actionable tool-call fragment emits the text triple tagged with the current
textBlockIndex first and then the tool triple tagged with the current
toolUseBlockIndex; the two counters are independent and both start at 0, so
on the first such chunk both triples carry index 0. -/
theorem C7_mixed_chunk {Msg : Type} (E : Env Msg) (req : Option (ClaudeRequest Msg))
    (s t n a : String)
    (hnl : '\n' ∉ s.toList) (hdone : s ≠ "[DONE]")
    (ht : t ≠ "") (hn : n ≠ "") (ha : a ≠ "")
    (hp : E.parseChunk s = some ⟨some [⟨some ⟨some t, some [⟨some ⟨some n, some a⟩⟩]⟩⟩]⟩) :
    processProviderStream E (some [dataMarker ++ s.toList ++ ['\n']]) req =
      ⟨Event.message_start (E.genId 0) ::
        (processTextPart t 0 ++
          (processToolUsePart n (safeJsonParse E.parseJson a) 0 (E.genId 1) ++
            [Event.message_stop (finalUsage E req
              (E.estimate t + E.estimate n +
                E.estimate (Json.stringify (safeJsonParse E.parseJson a))))])), true⟩ := by
  have hline : openaiProcessLine E s 0 0 0 1 =
      .produced ⟨processTextPart t 0 ++
          processToolUsePart n (safeJsonParse E.parseJson a) 0 (E.genId 1), 1, 1,
          E.estimate t + E.estimate n +
            E.estimate (Json.stringify (safeJsonParse E.parseJson a))⟩
        (E.estimate t + E.estimate n +
          E.estimate (Json.stringify (safeJsonParse E.parseJson a))) 2 := by
    unfold openaiProcessLine openaiDeltaStep openaiTextStep
    simp [hp, ht, hn, ha, processToolCalls]
  rw [run_single_line E req s hnl hdone, hline]
  dsimp only
  have hacc : (if (E.estimate t + E.estimate n +
      E.estimate (Json.stringify (safeJsonParse E.parseJson a))) ≠ 0 then
        E.estimate t + E.estimate n +
          E.estimate (Json.stringify (safeJsonParse E.parseJson a))
      else 0) =
      E.estimate t + E.estimate n +
        E.estimate (Json.stringify (safeJsonParse E.parseJson a)) := by
    by_cases hz : (E.estimate t + E.estimate n +
        E.estimate (Json.stringify (safeJsonParse E.parseJson a))) = 0
    · simp [hz]
    · simp [hz]
  rw [hacc, List.append_assoc]

/-- Witness for C7: a concrete mixed chunk yields the text triple at index 0
followed by the tool triple at index 0. -/
theorem C7_witness :
    exEnv.parseChunk mixedPayload =
      some ⟨some [⟨some ⟨some ("A"),
        some [⟨some ⟨some ("lookup"), some ("not json")⟩⟩]⟩⟩]⟩ ∧
    processProviderStream exEnv (some [dataMarker ++ mixedPayload.toList ++ ['\n']]) none =
      ⟨Event.message_start (exEnv.genId 0) ::
        (processTextPart ("A") 0 ++
          (processToolUsePart ("lookup") (safeJsonParse exEnv.parseJson ("not json")) 0
              (exEnv.genId 1) ++
            [Event.message_stop (finalUsage exEnv none
              (exEnv.estimate ("A") + exEnv.estimate ("lookup") +
                exEnv.estimate (Json.stringify
                  (safeJsonParse exEnv.parseJson ("not json")))))])), true⟩ :=
  ⟨by decide,
    C7_mixed_chunk exEnv none mixedPayload ("A") ("lookup") ("not json")
      (by decide) (by decide) (by decide) (by decide) (by decide) (by decide)⟩

/-- Claim C8: a tool-call fragment produces events and token accumulation
only when both the function name and the function arguments are present in
that fragment; a fragment missing its function, its name or its arguments is
skipped without any effect on events, indices, token total or id counter. -/
theorem C8_actionable_fragments {Msg : Type} (E : Env Msg) (tc : OpenAIToolCallFragment)
    (rest : List OpenAIToolCallFragment) (toi acc idc : Nat) :
    ((∀ f, tc.function = some f → f.name = none ∨ f.arguments = none) →
      processToolCalls E (tc :: rest) toi acc idc = processToolCalls E rest toi acc idc) ∧
    (processToolCalls E (tc :: rest) toi acc idc ≠ processToolCalls E rest toi acc idc →
      ∃ f n a, tc.function = some f ∧ f.name = some n ∧ f.arguments = some a) := by
  constructor
  · intro hmiss
    cases hf : tc.function with
    | none => simp [processToolCalls, hf]
    | some f =>
      rcases hmiss f hf with h | h
      · simp [processToolCalls, hf, h]
      · cases hn : f.name with
        | none => simp [processToolCalls, hf, hn]
        | some n => simp [processToolCalls, hf, hn, h]
  · intro hne
    by_contra hno
    apply hne
    cases hf : tc.function with
    | none => simp [processToolCalls, hf]
    | some f =>
      cases hn : f.name with
      | none => simp [processToolCalls, hf, hn]
      | some n =>
        cases ha : f.arguments with
        | none => simp [processToolCalls, hf, hn, ha]
        | some a => exact absurd ⟨f, n, a, hf, hn, ha⟩ hno

/-- Witness for C8: a fragment with a name but no arguments is skipped
entirely. -/
theorem C8_witness :
    (∀ f, (⟨some ⟨some ("f"), none⟩⟩ : OpenAIToolCallFragment).function = some f →
      f.name = none ∨ f.arguments = none) ∧
    processToolCalls exEnv [(⟨some ⟨some ("f"), none⟩⟩ : OpenAIToolCallFragment)] 0 0 1 =
      processToolCalls exEnv [] 0 0 1 := by
  have hmiss : ∀ f, (⟨some ⟨some ("f"), none⟩⟩ : OpenAIToolCallFragment).function = some f →
      f.name = none ∨ f.arguments = none := by
    intro f hf
    simp only [Option.some.injEq] at hf
    rw [← hf]
    exact Or.inr rfl
  exact ⟨hmiss,
    (C8_actionable_fragments exEnv ⟨some ⟨some ("f"), none⟩⟩ [] 0 0 1).1 hmiss⟩

/-- Claim C9: a tool-call fragment whose arguments string is not valid JSON
does not abort: `safeJsonParse` falls back to the empty object, the fragment
is still emitted as a full tool_use triple whose `input_json_delta` payload
is the serialized empty object, and processing continues with the remaining
fragments. -/
theorem C9_malformed_args {Msg : Type} (E : Env Msg) (n a : String)
    (rest : List OpenAIToolCallFragment) (toi acc idc : Nat)
    (hn : n ≠ "") (ha : a ≠ "") (hbad : E.parseJson a = none) :
    safeJsonParse E.parseJson a = Json.obj [] ∧
    (processToolCalls E ((⟨some ⟨some n, some a⟩⟩ : OpenAIToolCallFragment) :: rest)
        toi acc idc).1 =
      ([Event.content_block_start toi (BlockStart.tool_use (E.genId idc) n),
        Event.content_block_delta toi (Delta.input_json_delta ("\x7b\x7d")),
        Event.content_block_stop toi] : List Event) ++
        (processToolCalls E rest (toi + 1)
          (acc + E.estimate n + E.estimate ("\x7b\x7d")) (idc + 1)).1 := by
  have h1 : safeJsonParse E.parseJson a = Json.obj [] := by
    simp [safeJsonParse, hbad]
  have h2 : Json.stringify (Json.obj []) = "\x7b\x7d" := rfl
  refine ⟨h1, ?_⟩
  simp only [processToolCalls, if_neg hn, if_neg ha, h1, h2]
  cases hr : processToolCalls E rest (toi + 1)
      (acc + E.estimate n + E.estimate ("\x7b\x7d")) (idc + 1) with
  | mk evs2 r3 =>
    simp [processToolUsePart, h2]

/-- Witness for C9: the concrete fragment with arguments "not json" emits
the tool triple with the empty-object payload. -/
theorem C9_witness :
    exEnv.parseJson ("not json") = none ∧
    (safeJsonParse exEnv.parseJson ("not json") = Json.obj [] ∧
    (processToolCalls exEnv
        [(⟨some ⟨some ("lookup"), some ("not json")⟩⟩ : OpenAIToolCallFragment)] 0 0 1).1 =
      ([Event.content_block_start 0 (BlockStart.tool_use (exEnv.genId 1) ("lookup")),
        Event.content_block_delta 0 (Delta.input_json_delta ("\x7b\x7d")),
        Event.content_block_stop 0] : List Event) ++
        (processToolCalls exEnv [] (0 + 1)
          (0 + exEnv.estimate ("lookup") + exEnv.estimate ("\x7b\x7d")) (1 + 1)).1) :=
  ⟨rfl,
    C9_malformed_args exEnv ("lookup") ("not json") [] 0 0 1
      (by decide) (by decide) rfl⟩

/-- Claim C10: a streaming response without a readable body closes the
outbound stream immediately with zero events of any kind: no message_start,
no message_stop, no block events. -/
theorem C10_no_body {Msg : Type} (E : Env Msg) (req : Option (ClaudeRequest Msg)) :
    processProviderStream E none req = ⟨[], true⟩ :=
  rfl

end ClaudeWorkerProxy
